import Mathlib

/-!
Shallow embedding of the matheditor core (src/src/main.rs): the term tree
(`InputValue` / `InputValues`), the recursive cursor (`ValueCursor`), the
navigation/mutation engine, the document-level operations (`ProgramState`)
and the layout pass (`render`).

Conventions of the embedding:
* Rust `usize` is modelled as `Nat`; `i32` as `Int`.  Casts `usize as i32` /
  `u32 as i32` are modelled exactly by `i32ofNat` (wrap modulo 2^32, then
  reinterpret as a signed value).  Rust `i32` division truncates toward zero,
  which is `Int.tdiv`.
* Every Rust operation that can panic (`Vec` indexing / `insert` / `remove`
  out of bounds, `usize` subtraction underflow, `unreachable!`) is modelled
  as an `Option`-valued function returning `none` at the panic.
* `ValueCursor { index, follow: Option<(CursorFollow, Box<ValueCursor>)> }`
  is represented by a two-constructor inductive: `.leaf i` stands for
  `follow = None` and `.follow i side child` for `follow = Some((side, child))`.
* `InputValues` is a `Vec<InputValue>`, modelled as `List InputValue`.
-/

namespace MathEditor

/-- Wrapping conversion of a `usize`/`u32` value to `i32`, as in Rust `as i32`. -/
def i32ofNat (n : Nat) : Int :=
if n % 4294967296 < 2147483648 then ((n % 4294967296 : Nat) : Int)
else ((n % 4294967296 : Nat) : Int) - 4294967296

/-- Rust `i32::clamp(self, lo, hi)`: `if self < lo { lo } else if self > hi { hi } else { self }`. -/
def clampI (x lo hi : Int) : Int :=
if x < lo then lo else if hi < x then hi else x

/-- `enum CursorFollow { Top, Bottom }`. -/
inductive CursorFollow where
| top
| bottom
deriving DecidableEq

/-- `CursorFollow::opposite`. -/
def CursorFollow.opposite : CursorFollow → CursorFollow
| .top => .bottom
| .bottom => .top

/-- `struct ValueCursor { index: usize, follow: Option<(CursorFollow, Box<ValueCursor>)> }`.
`.leaf i` is `{index: i, follow: None}`; `.follow i side child` is
`{index: i, follow: Some((side, child))}`. -/
inductive ValueCursor where
| leaf (index : Nat)
| follow (index : Nat) (side : CursorFollow) (child : ValueCursor)
deriving DecidableEq

/-- The `index` field of a `ValueCursor`. -/
def ValueCursor.index : ValueCursor → Nat
| .leaf i => i
| .follow i _ _ => i

/-- The `follow` field of a `ValueCursor`, as an option. -/
def ValueCursor.followOf : ValueCursor → Option (CursorFollow × ValueCursor)
| .leaf _ => none
| .follow _ s c => some (s, c)

/-- `enum InputValue { Value(String), Fraction{top, bottom} }`; an
`InputValues` (one term sequence) is its `Vec`, modelled as a list. -/
inductive InputValue where
| value (t : String)
| fraction (top bottom : List InputValue)

/-- `ValueCursor::added`: advance the innermost index by one. -/
def ValueCursor.added : ValueCursor → ValueCursor
| .leaf i => .leaf (i + 1)
| .follow i s c => .follow i s c.added

/-- `ValueCursor::add_fraction`: at the innermost level, if `index != 0`,
descend into the new fraction's bottom at index 0. -/
def ValueCursor.add_fraction : ValueCursor → ValueCursor
| .leaf 0 => .leaf 0
| .leaf (j + 1) => .follow (j + 1) .bottom (.leaf 0)
| .follow i s c => .follow i s c.add_fraction

namespace InputValues

/-- `InputValues::add_text`: traverse to the innermost sequence selected by the
cursor and insert `Value(text)` at the cursor's index there.  `none` models the
panics of `self.0[cursor.index() - 1]` (index 0 underflow or out of bounds),
the `unreachable!` on a non-fraction element, and `Vec::insert` out of range. -/
def add_text : List InputValue → ValueCursor → String → Option (List InputValue)
| vs, .leaf i, t =>
  if i ≤ vs.length then some (vs.take i ++ .value t :: vs.drop i) else none
| vs, .follow i side child, t =>
  if i = 0 then none else
  match vs[i - 1]?, side with
  | some (.fraction top bottom), .top =>
    (add_text top child t).map fun top' => vs.set (i - 1) (.fraction top' bottom)
  | some (.fraction top bottom), .bottom =>
    (add_text bottom child t).map fun bottom' => vs.set (i - 1) (.fraction top bottom')
  | _, _ => none

/-- `InputValues::add_fraction`: at the innermost sequence, if `index >= 1`,
replace the element before the cursor by `Fraction{top: [element], bottom: []}`. -/
def add_fraction : List InputValue → ValueCursor → Option (List InputValue)
| vs, .leaf 0 => some vs
| vs, .leaf (j + 1) =>
  match vs[j]? with
  | some v => some (vs.set j (.fraction [v] []))
  | none => none
| vs, .follow i side child =>
  if i = 0 then none else
  match vs[i - 1]?, side with
  | some (.fraction top bottom), .top =>
    (add_fraction top child).map fun top' => vs.set (i - 1) (.fraction top' bottom)
  | some (.fraction top bottom), .bottom =>
    (add_fraction bottom child).map fun bottom' => vs.set (i - 1) (.fraction top bottom')
  | _, _ => none

/-- `InputValues::replace(index, values)`: remove the element at `index` and
splice `values` in its place. -/
def replace (vs : List InputValue) (index : Nat) (values : List InputValue) : List InputValue :=
vs.take index ++ values ++ vs.drop (index + 1)

/-- `InputValues::remove_single`: returns the updated sequence, the updated
cursor and the "request parent removal" flag. -/
def remove_single : List InputValue → ValueCursor → Option (List InputValue × ValueCursor × Bool)
| vs, .leaf 0 => some (vs, .leaf 0, true)
| vs, .leaf (j + 1) =>
  if j < vs.length then some (vs.eraseIdx j, .leaf j, false) else none
| vs, .follow i side child =>
  if i = 0 then none else
  match vs[i - 1]?, side with
  | some (.fraction top bottom), .top =>
    (remove_single top child).map fun r =>
      if r.2.2 then (replace vs (i - 1) bottom, .leaf i, false)
      else (vs.set (i - 1) (.fraction r.1 bottom), .follow i .top r.2.1, false)
  | some (.fraction top bottom), .bottom =>
    (remove_single bottom child).map fun r =>
      if r.2.2 then (replace vs (i - 1) top, .leaf i, false)
      else (vs.set (i - 1) (.fraction top r.1), .follow i .bottom r.2.1, false)
  | _, _ => none

/-- `InputValues::move_right_inner`: returns the updated cursor and the
"exhausted" flag (`true` when the innermost index was already at the end;
every level on the way up then clears its `follow`). -/
def move_right_inner : List InputValue → ValueCursor → Option (ValueCursor × Bool)
| vs, .leaf i =>
  if i < vs.length then some (.leaf (i + 1), false) else some (.leaf i, true)
| vs, .follow i side child =>
  if i = 0 then none else
  match vs[i - 1]?, side with
  | some (.fraction top _), .top =>
    (move_right_inner top child).map fun r =>
      if r.2 then ((.leaf i : ValueCursor), true) else ((.follow i .top r.1 : ValueCursor), false)
  | some (.fraction _ bottom), .bottom =>
    (move_right_inner bottom child).map fun r =>
      if r.2 then ((.leaf i : ValueCursor), true) else ((.follow i .bottom r.1 : ValueCursor), false)
  | _, _ => none

/-- `InputValues::move_left_inner`: never inspects the sequence; decrement the
innermost index, or pop one `follow` level and retry (discarding the retry's
exhausted flag) when the innermost index is 0. -/
def move_left_inner : List InputValue → ValueCursor → ValueCursor × Bool
| _, .leaf 0 => (.leaf 0, true)
| _, .leaf (j + 1) => (.leaf j, false)
| vs, .follow i side child =>
  let r := move_left_inner vs child
  if r.2 then (.leaf (i - 1), false) else (.follow i side r.1, false)

/-- `InputValues::step_in`: traverse to the innermost level; if the element
just left of the innermost index is a fraction, descend into its `top` (at its
right end if `right`, else at index 0) and report `true`. -/
def step_in : List InputValue → ValueCursor → Bool → Option (ValueCursor × Bool)
| _, .leaf 0, _ => some (.leaf 0, false)
| vs, .leaf (j + 1), right =>
  match vs[j]? with
  | some (.fraction top _) =>
    some (.follow (j + 1) .top (.leaf (if right then top.length else 0)), true)
  | some (.value _) => some (.leaf (j + 1), false)
  | none => none
| vs, .follow i side child, right =>
  if i = 0 then none else
  match vs[i - 1]?, side with
  | some (.fraction top _), .top =>
    (step_in top child right).map fun r => ((.follow i .top r.1 : ValueCursor), r.2)
  | some (.fraction _ bottom), .bottom =>
    (step_in bottom child right).map fun r => ((.follow i .bottom r.1 : ValueCursor), r.2)
  | _, _ => none

/-- `InputValues::move_left`: try `step_in` (entering a fraction from its
right); otherwise do the plain left move. -/
def move_left (vs : List InputValue) (c : ValueCursor) : Option ValueCursor :=
(step_in vs c true).map fun r => if r.2 then r.1 else (move_left_inner vs r.1).1

/-- `InputValues::move_right`: plain right move first; when not exhausted, try
`step_in` (entering the fraction now just left of the cursor from its left). -/
def move_right (vs : List InputValue) (c : ValueCursor) : Option ValueCursor :=
(move_right_inner vs c).bind fun r =>
  if r.2 then some r.1 else (step_in vs r.1 false).map fun r' => r'.1

/-- `InputValues::move_vertical`: at the deepest `follow` (whose child has no
`follow`), if the side equals `which`, flip it and rescale the child index;
when the child still has a `follow`, the source recurses through `move_down`
for either direction.  Returns the updated cursor and whether a flip happened. -/
def move_vertical : List InputValue → ValueCursor → CursorFollow → Option (ValueCursor × Bool)
| _, .leaf i, _ => some (.leaf i, false)
| vs, .follow i side child, which =>
  if i = 0 then none else
  match vs[i - 1]? with
  | none => none
  | some this =>
    match child with
    | .leaf j =>
      if side = which then
        match this with
        | .fraction top bottom =>
          let ab := if which = .top then (top.length, bottom.length) else (bottom.length, top.length)
          let diff : Int := i32ofNat ab.1 - i32ofNat ab.2
          let half_diff : Int := Int.tdiv diff 2
          let limit : Int := i32ofNat ab.2
          let j' : Nat := (clampI (i32ofNat j - half_diff) 0 limit).toNat
          some (.follow i which.opposite (.leaf j'), true)
        | .value _ => none
      else some (.follow i side (.leaf j), false)
    | .follow j s c =>
      match this, side with
      | .fraction top _, .top =>
        (move_vertical top (.follow j s c) .top).map fun r => ((.follow i .top r.1 : ValueCursor), r.2)
      | .fraction _ bottom, .bottom =>
        (move_vertical bottom (.follow j s c) .top).map fun r => ((.follow i .bottom r.1 : ValueCursor), r.2)
      | .value _, _ => none

/-- `InputValues::move_up`. -/
def move_up (vs : List InputValue) (c : ValueCursor) : Option (ValueCursor × Bool) :=
move_vertical vs c .bottom

/-- `InputValues::move_down`. -/
def move_down (vs : List InputValue) (c : ValueCursor) : Option (ValueCursor × Bool) :=
move_vertical vs c .top

end InputValues

/-- `struct Cursor { line: usize, value: ValueCursor }`. -/
structure Cursor where
  line : Nat
  value : ValueCursor
deriving DecidableEq

/-- The document part of `struct ProgramState`: the cursor and the lines.
(The font handle is external and irrelevant to the core.) -/
structure ProgramState where
  cursor : Cursor
  lines : List (List InputValue)

namespace ProgramState

/-- `ProgramState::new`: one empty line, cursor at line 0, `{index: 0, follow: None}`. -/
def init : ProgramState := ⟨⟨0, .leaf 0⟩, [[]]⟩

/-- `ProgramState::add_normal`: insert a leaf at the cursor, then advance the
cursor (`ValueCursor::added`). -/
def add_normal (s : ProgramState) (t : String) : Option ProgramState :=
(s.lines[s.cursor.line]?).bind fun L =>
  (InputValues.add_text L s.cursor.value t).map fun L' =>
    ⟨⟨s.cursor.line, s.cursor.value.added⟩, s.lines.set s.cursor.line L'⟩

/-- `ProgramState::add_fraction`: wrap the element before the cursor into a
fraction, then descend the cursor into its bottom. -/
def add_fraction (s : ProgramState) : Option ProgramState :=
(s.lines[s.cursor.line]?).bind fun L =>
  (InputValues.add_fraction L s.cursor.value).map fun L' =>
    ⟨⟨s.cursor.line, s.cursor.value.add_fraction⟩, s.lines.set s.cursor.line L'⟩

/-- `ProgramState::add_text`: `"/"` creates a fraction, anything else a leaf. -/
def add_text (s : ProgramState) (t : String) : Option ProgramState :=
if t = "/" then s.add_fraction else s.add_normal t

/-- `ProgramState::new_line`: no-op when the cursor has a `follow`; otherwise
split the current line at the cursor index and move to the new line. -/
def new_line (s : ProgramState) : Option ProgramState :=
match s.cursor.value with
| .follow _ _ _ => some s
| .leaf i =>
  (s.lines[s.cursor.line]?).bind fun L =>
    if i ≤ L.length then
      some ⟨⟨s.cursor.line + 1, .leaf 0⟩,
        ((s.lines.set s.cursor.line (L.take i)).take (s.cursor.line + 1))
          ++ L.drop i :: ((s.lines.set s.cursor.line (L.take i)).drop (s.cursor.line + 1))⟩
    else none

/-- `ProgramState::remove_single` (deleteBefore): at index 0 with no `follow`,
merge the current line into the previous one; `none` models the `usize`
underflow panic of `self.cursor.line -= 1` when the cursor is on line 0. -/
def remove_single (s : ProgramState) : Option ProgramState :=
match s.cursor.value with
| .leaf 0 =>
  if s.lines.length = 1 then some s
  else
    (s.lines[s.cursor.line]?).bind fun previous =>
      match s.cursor.line with
      | 0 => none
      | nl + 1 =>
        let lines' := s.lines.eraseIdx (nl + 1)
        (lines'[nl]?).map fun prevLine =>
          ⟨⟨nl, .leaf prevLine.length⟩, lines'.set nl (prevLine ++ previous)⟩
| v =>
  (s.lines[s.cursor.line]?).bind fun L =>
    (InputValues.remove_single L v).map fun r =>
      ⟨⟨s.cursor.line, r.2.1⟩, s.lines.set s.cursor.line r.1⟩

/-- `ProgramState::move_left`: the exhausted flag is discarded at document level. -/
def move_left (s : ProgramState) : Option ProgramState :=
(s.lines[s.cursor.line]?).bind fun L =>
  (InputValues.move_left L s.cursor.value).map fun v' =>
    ⟨⟨s.cursor.line, v'⟩, s.lines⟩

/-- `ProgramState::move_right`: the exhausted flag is discarded at document level. -/
def move_right (s : ProgramState) : Option ProgramState :=
(s.lines[s.cursor.line]?).bind fun L =>
  (InputValues.move_right L s.cursor.value).map fun v' =>
    ⟨⟨s.cursor.line, v'⟩, s.lines⟩

/-- `ProgramState::remove_next_single` (deleteAfter). -/
def remove_next_single (s : ProgramState) : Option ProgramState :=
(s.lines[s.cursor.line]?).bind fun L =>
  match s.cursor.value with
  | .leaf i =>
    if i = L.length then
      if s.cursor.line + 1 < s.lines.length then
        (s.lines[s.cursor.line + 1]?).map fun nextL =>
          ⟨s.cursor, (s.lines.eraseIdx (s.cursor.line + 1)).set s.cursor.line (L ++ nextL)⟩
      else some ⟨s.cursor, s.lines⟩
    else s.move_right.bind remove_single
  | .follow _ _ _ => s.move_right.bind remove_single

/-- `ProgramState::truncate_index` applied to a follow-free cursor value. -/
def truncated (i : Nat) (L : List InputValue) : ValueCursor := .leaf (min i L.length)

/-- `ProgramState::move_up`: flip inside a fraction, or move to the previous
line (clamping the index) when the cursor has no `follow`. -/
def move_up (s : ProgramState) : Option ProgramState :=
(s.lines[s.cursor.line]?).bind fun L =>
  (InputValues.move_up L s.cursor.value).bind fun r =>
    if r.2 then some ⟨⟨s.cursor.line, r.1⟩, s.lines⟩
    else
      match r.1 with
      | .leaf i =>
        match s.cursor.line with
        | 0 => some ⟨⟨0, .leaf i⟩, s.lines⟩
        | nl + 1 =>
          (s.lines[nl]?).map fun PL => ⟨⟨nl, truncated i PL⟩, s.lines⟩
      | v' => some ⟨⟨s.cursor.line, v'⟩, s.lines⟩

/-- `ProgramState::move_down`: flip inside a fraction, or move to the next
line (clamping the index) when the cursor has no `follow`. -/
def move_down (s : ProgramState) : Option ProgramState :=
(s.lines[s.cursor.line]?).bind fun L =>
  (InputValues.move_down L s.cursor.value).bind fun r =>
    if r.2 then some ⟨⟨s.cursor.line, r.1⟩, s.lines⟩
    else
      match r.1 with
      | .leaf i =>
        if s.cursor.line < s.lines.length - 1 then
          (s.lines[s.cursor.line + 1]?).map fun NL =>
            ⟨⟨s.cursor.line + 1, truncated i NL⟩, s.lines⟩
        else some ⟨⟨s.cursor.line, .leaf i⟩, s.lines⟩
      | v' => some ⟨⟨s.cursor.line, v'⟩, s.lines⟩

end ProgramState

/-- `const FONT_SIZE: u32 = 20`. -/
def FONT_SIZE : Nat := 20

/-- `enum RenderValue`: the three draw primitives. -/
inductive RenderValue where
| text (x y : Int) (t : String)
| line (x y : Int) (width : Nat)
| cursorMark (x y : Int)
deriving DecidableEq

namespace RenderValue

/-- `RenderValue::new_cursor`. -/
def new_cursor (x y : Int) : RenderValue := .cursorMark x (y - Int.tdiv (i32ofNat FONT_SIZE) 2)

/-- `RenderValue::shift`. -/
def shift (v : RenderValue) (sx sy : Int) : RenderValue :=
match v with
| .text x y t => .text (x + sx) (y + sy) t
| .line x y w => .line (x + sx) (y + sy) w
| .cursorMark x y => .cursorMark (x + sx) (y + sy)

end RenderValue

/-- `struct RenderRect { x: i32, y: i32, width: u32, height: u32 }`. -/
structure RenderRect where
  x : Int
  y : Int
  width : Nat
  height : Nat
deriving DecidableEq

namespace RenderRect

/-- `RenderRect::empty`. -/
def empty : RenderRect := ⟨0, 0, 0, 0⟩

/-- `RenderRect::combine`: the union bounding rectangle.  `end_x - x` is
non-negative, so the Rust `as u32` cast is exact (`Int.toNat`). -/
def combine (a b : RenderRect) : RenderRect :=
let x := min a.x b.x
let y := min a.y b.y
let end_x := max (a.x + i32ofNat a.width) (b.x + i32ofNat b.width)
let end_y := max (a.y + i32ofNat a.height) (b.y + i32ofNat b.height)
⟨x, y, (end_x - x).toNat, (end_y - y).toNat⟩

end RenderRect

/-- `RenderValue::new_cursor_rect`. -/
def RenderValue.new_cursor_rect (r : RenderRect) : RenderValue :=
RenderValue.new_cursor (r.x + i32ofNat r.width) (r.y + Int.tdiv (i32ofNat r.height) 2)

/-- `struct RenderResult { rect: RenderRect, render: Vec<RenderValue> }`. -/
structure RenderResult where
  rect : RenderRect
  render : List RenderValue
deriving DecidableEq

namespace RenderResult

/-- `RenderResult::empty`. -/
def empty (r : RenderRect) : RenderResult := ⟨r, []⟩

/-- `RenderResult::is_cursor`: exactly one primitive, and it is a cursor mark. -/
def is_cursor (r : RenderResult) : Bool :=
match r.render with
| [.cursorMark _ _] => true
| _ => false

/-- `RenderResult::combine`: cursor-only results do not grow the rectangle. -/
def combine (a b : RenderResult) : RenderResult :=
⟨if b.is_cursor then a.rect else a.rect.combine b.rect, a.render ++ b.render⟩

/-- `RenderResult::shift`. -/
def shift (r : RenderResult) (sx sy : Int) : RenderResult :=
⟨⟨r.rect.x + sx, r.rect.y + sy, r.rect.width, r.rect.height⟩,
 r.render.map fun v => v.shift sx sy⟩

end RenderResult

/-- The `start` accumulator of `InputValues::render`: the empty result at
`(x, y)`, plus a cursor mark when the cursor is `{index: 0, follow: None}`. -/
def InputValues.renderStart (cursor : Option ValueCursor) (x y : Int)
    (f : RenderValue → RenderResult) : RenderResult :=
let start := RenderResult.empty ⟨x, y, 0, 0⟩
match cursor with
| some (.leaf 0) => start.combine (f (RenderValue.new_cursor x (y + Int.tdiv (i32ofNat FONT_SIZE) 2)))
| _ => start

mutual

/-- `InputValue::render`: a leaf is measured by the collaborator `f`; a
fraction lays out `top` and `bottom`, shifts them apart vertically, centers
the narrower one, and emits a divider line. -/
def InputValue.render : InputValue → Option (CursorFollow × ValueCursor) → Int → Int →
    (RenderValue → RenderResult) → RenderResult
| .value t, _, x, y, f => f (.text x y t)
| .fraction top bottom, cursor, x, y, f =>
  let top_cursor := cursor.bind fun p => if p.1 = CursorFollow.top then some p.2 else none
  let topR := InputValues.renderFold top top_cursor x y f 0 (InputValues.renderStart top_cursor x y f)
  let bottom_cursor := cursor.bind fun p => if p.1 = CursorFollow.bottom then some p.2 else none
  let bottomR := InputValues.renderFold bottom bottom_cursor x y f 0 (InputValues.renderStart bottom_cursor x y f)
  let shifts : Int × Int :=
    if topR.rect.width < bottomR.rect.width
    then (Int.tdiv (i32ofNat bottomR.rect.width - i32ofNat topR.rect.width) 2, 0)
    else (0, Int.tdiv (i32ofNat topR.rect.width - i32ofNat bottomR.rect.width) 2)
  let offset_y : Int := Int.tdiv (i32ofNat (max topR.rect.height bottomR.rect.height)) 2
  let topR := topR.shift shifts.1 (-offset_y)
  let bottomR := bottomR.shift shifts.2 offset_y
  let width := max topR.rect.width bottomR.rect.width
  let lineR := f (.line x (Int.tdiv (topR.rect.y + i32ofNat topR.rect.height + bottomR.rect.y) 2) width)
  ⟨bottomR.rect.combine topR.rect, topR.render ++ bottomR.render ++ lineR.render⟩

/-- The fold body of `InputValues::render` (the `enumerate().fold(...)`). -/
def InputValues.renderFold : List InputValue → Option ValueCursor → Int → Int →
    (RenderValue → RenderResult) → Nat → RenderResult → RenderResult
| [], _, _, _, _, _, acc => acc
| v :: rest, cursor, x, y, f, index, acc =>
  let this_index : Bool := decide (cursor.map ValueCursor.index = some (index + 1))
  let ccursor := if this_index then cursor.bind ValueCursor.followOf else none
  let r := InputValue.render v ccursor (x + i32ofNat acc.rect.width) y f
  let rect := r.rect
  let combined := acc.combine r
  let combined :=
    if this_index && ccursor.isNone
    then combined.combine (f (RenderValue.new_cursor_rect rect))
    else combined
  InputValues.renderFold rest cursor x y f (index + 1) combined

end

/-- `InputValues::render`: emit a cursor mark for `{index: 0, follow: None}`,
then fold the elements left to right. -/
def InputValues.render (vs : List InputValue) (cursor : Option ValueCursor) (x y : Int)
    (f : RenderValue → RenderResult) : RenderResult :=
InputValues.renderFold vs cursor x y f 0 (InputValues.renderStart cursor x y f)

/-- The `center` helper inside `ProgramState::render`. -/
def center (size : Nat) (start : Int) (other_size : Nat) : Int :=
start + Int.tdiv (i32ofNat size - i32ofNat other_size) 2

/-- `ProgramState::render`: fold the lines top to bottom, center the whole
result in the viewport, then apply the two negative-coordinate shifts.  The
returned `RenderResult` carries the primitives handed to the renderer and the
final combined rectangle. -/
def ProgramState.render (s : ProgramState) (width height : Nat)
    (f : RenderValue → RenderResult) : RenderResult :=
let folded := s.lines.enum.foldl
  (fun acc p =>
    let index := p.1
    let line := p.2
    let cursor := if s.cursor.line = index then some s.cursor.value else none
    let y := acc.rect.y + i32ofNat acc.rect.height
    let rendered := InputValues.render line cursor 0 y f
    let diff := y - rendered.rect.y
    let rendered := rendered.shift 0 diff
    acc.combine rendered)
  (RenderResult.empty RenderRect.empty)
let x := center width folded.rect.x folded.rect.width
let y := center height folded.rect.y folded.rect.height
let folded := folded.shift x y
let folded := if folded.rect.y < 0 then folded.shift 0 folded.rect.y else folded
let folded := if folded.rect.x < 0 then folded.shift folded.rect.x 0 else folded
folded

/-- One external input event, as dispatched by the event loop in `main`. -/
inductive Op where
| text (t : String)
| enter
| backspace
| del
| left
| right
| up
| down

/-- Apply one event to the document state. -/
def applyOp (s : ProgramState) : Op → Option ProgramState
| .text t => s.add_text t
| .enter => s.new_line
| .backspace => s.remove_single
| .del => s.remove_next_single
| .left => s.move_left
| .right => s.move_right
| .up => s.move_up
| .down => s.move_down

/-- Apply a sequence of events to the document state. -/
def applyOps (ops : List Op) (s : ProgramState) : Option ProgramState :=
List.foldlM applyOp s ops

/-! Observers over the data model, used to state the specification claims. -/

/-- Select a fraction's branch by side. -/
def CursorFollow.pick : CursorFollow → List InputValue → List InputValue → List InputValue
| .top, t, _ => t
| .bottom, _, b => b

/-- Validity of a cursor in a sequence: the index is a gap position
(`index ≤ length`) and every `follow` descends through a fraction element
immediately left of an index `≥ 1`. -/
def validCursor : List InputValue → ValueCursor → Bool
| vs, .leaf i => decide (i ≤ vs.length)
| vs, .follow i side child =>
  decide (1 ≤ i) &&
  match vs[i - 1]?, side with
  | some (.fraction top _), .top => validCursor top child
  | some (.fraction _ bottom), .bottom => validCursor bottom child
  | _, _ => false

/-- The index-bounds part of the claimed invariant: at every depth of the
follow chain that resolves, the index is at most the length of the sequence
it refers to. -/
def indexBounds : List InputValue → ValueCursor → Bool
| vs, .leaf i => decide (i ≤ vs.length)
| vs, .follow i side child =>
  decide (i ≤ vs.length) &&
  match vs[i - 1]?, side with
  | some (.fraction top _), .top => indexBounds top child
  | some (.fraction _ bottom), .bottom => indexBounds bottom child
  | _, _ => true

/-- The innermost (owning) sequence a cursor resolves to. -/
def seqAt : List InputValue → ValueCursor → Option (List InputValue)
| vs, .leaf _ => some vs
| vs, .follow i side child =>
  match vs[i - 1]?, side with
  | some (.fraction top _), .top => seqAt top child
  | some (.fraction _ bottom), .bottom => seqAt bottom child
  | _, _ => none

/-- The index at the innermost level of a cursor. -/
def ValueCursor.innerIndex : ValueCursor → Nat
| .leaf i => i
| .follow _ _ c => c.innerIndex

/-- The ancestor levels of a cursor: the `(index, side)` of every `follow`,
outermost first.  The innermost index is not part of the chain. -/
def ValueCursor.chain : ValueCursor → List (Nat × CursorFollow)
| .leaf _ => []
| .follow i s c => (i, s) :: c.chain

/-- The element immediately left of the innermost cursor position. -/
def innerAt (vs : List InputValue) (c : ValueCursor) : Option InputValue :=
(seqAt vs c).bind fun s => s[c.innerIndex - 1]?

/-- Decrement the innermost index of a cursor. -/
def ValueCursor.decInner : ValueCursor → ValueCursor
| .leaf i => .leaf (i - 1)
| .follow i s c => .follow i s c.decInner

/-- Increment the innermost index of a cursor. -/
def ValueCursor.incInner : ValueCursor → ValueCursor
| .leaf i => .leaf (i + 1)
| .follow i s c => .follow i s c.incInner

/-- Attach a `(Top, {index: j, follow: None})` follow at the innermost level
(the cursor produced by `step_in`). -/
def ValueCursor.pushTop (j : Nat) : ValueCursor → ValueCursor
| .leaf i => .follow i .top (.leaf j)
| .follow i s c => .follow i s (c.pushTop j)

/-! Concrete inputs used by counterexamples and witnesses. -/

/-- The measurement closure of `redraw_window` in `main`, for an abstract
text-measurement collaborator: a text run gets its measured rectangle, a
divider line a rectangle of thickness 2 centered on its y, a cursor mark a
zero-size rectangle. -/
def mkMeasureF (measure : String → Nat × Nat) : RenderValue → RenderResult
| .text x y t => ⟨⟨x, y, (measure t).1, (measure t).2⟩, [.text x y t]⟩
| .line x y w => ⟨⟨x, y - 1, w, 2⟩, [.line x y w]⟩
| .cursorMark x y => ⟨⟨x, y, 0, 0⟩, [.cursorMark x y]⟩

/-- A text-measurement collaborator that measures every string as 100×30. -/
def measure100 : String → Nat × Nat := fun _ => (100, 30)

/-- A one-line document holding one leaf, cursor after it. -/
def sC3 : ProgramState := ⟨⟨0, .leaf 1⟩, [[.value "a"]]⟩

/-- A nested document fragment: `[ 1 / (2 / _) ]`. -/
def vsC4 : List InputValue :=
[.fraction [.value "1"] [.fraction [.value "2"] []]]

/-- A depth-2 cursor inside `vsC4` whose innermost side is `Top`. -/
def cC4 : ValueCursor := .follow 1 .bottom (.follow 1 .top (.leaf 0))

/-- A two-line document with the cursor at the end of line 0. -/
def sC5 : ProgramState := ⟨⟨0, .leaf 1⟩, [[.value "a"], [.value "b"]]⟩

/-- A two-line document with the cursor at the end of the empty line 0. -/
def sC5w : ProgramState := ⟨⟨0, .leaf 0⟩, [[], []]⟩

/-- A single-leaf fraction with the cursor at bottom index 0. -/
def sC6 : ProgramState := ⟨⟨0, .follow 1 .bottom (.leaf 0)⟩, [[.fraction [.value "x"] []]]⟩

/-- A fraction with top length 4 and bottom length 2 (the spec's rescaling
example). -/
def top9 : List InputValue := [.value "1", .value "2", .value "3", .value "4"]

/-- Bottom sequence of the rescaling example. -/
def bottom9 : List InputValue := [.value "5", .value "6"]

/-- The sequence holding the rescaling example's fraction. -/
def vs9 : List InputValue := [.fraction top9 bottom9]

/-- A document state whose cursor is inside a fraction (used for `newLine`). -/
def sC10 : ProgramState := ⟨⟨0, .follow 1 .bottom (.leaf 0)⟩, [[.fraction [.value "1"] []]]⟩

/-- A valid cursor for the insertion witness: inside the bottom of a fraction. -/
def cC7 : ValueCursor := .follow 1 .bottom (.leaf 0)

/-- The sequence for the insertion witness. -/
def vsC7 : List InputValue := [.fraction [.value "1"] [.value "2"]]

/-- A one-leaf sequence for the round-trip counterexample. -/
def vsC8 : List InputValue := [.value "a"]

/-- A two-leaf sequence for the round-trip witness. -/
def vsC8w : List InputValue := [.value "a", .value "b"]

end MathEditor

namespace MathEditor

/-! Helper lemmas. -/

/-- For values below `2^31` the `usize as i32` cast is the identity. -/
theorem i32ofNat_eq_of_lt {n : Nat} (h : n < 2147483648) : i32ofNat n = (n : Int) := by
have h2 : n % 4294967296 = n := Nat.mod_eq_of_lt (by omega)
simp [i32ofNat, h2, h]

/-- Rust's clamp to `[0, hi]` is `max 0 (min x hi)` when `0 ≤ hi`. -/
theorem clampI_eq_max_min (x hi : Int) (h : 0 ≤ hi) :
    clampI x 0 hi = max 0 (min x hi) := by
unfold clampI
split_ifs <;> omega

/-! Claim theorems. -/

/-- C10: if the document cursor's `ValueCursor` has a `follow`, `newLine()` is
a no-op: the lines and the whole cursor are unchanged. -/
theorem new_line_inside_fraction_noop (s : ProgramState) (i : Nat) (side : CursorFollow)
    (child : ValueCursor) (h : s.cursor.value = .follow i side child) :
    ProgramState.new_line s = some s := by
simp [ProgramState.new_line, h]

/-- Witness for C10 at a concrete state. -/
theorem new_line_inside_fraction_noop_witness :
    sC10.cursor.value = .follow 1 .bottom (.leaf 0) ∧
    ProgramState.new_line sC10 = some sC10 :=
⟨rfl, new_line_inside_fraction_noop sC10 1 .bottom (.leaf 0) rfl⟩

/-- C5 counterexample: at the end of line 0 of a two-line document, a
`moveRight` leaves the document state (in particular the cursor's line, still
0) unchanged — the document level does not advance to the next line. -/
theorem move_right_no_line_advance_cex :
    ProgramState.move_right sC5 = some sC5 ∧ sC5.cursor.line = 0 ∧ sC5.lines.length = 2 :=
⟨rfl, rfl, rfl⟩

/-- C5 amended: with no `follow` and index = line length, `move_right_inner`
does signal "exhausted", but the document-level caller discards the signal and
the state is unchanged — no advance to the next line. -/
theorem move_right_end_of_line (s : ProgramState) (L : List InputValue)
    (hL : s.lines[s.cursor.line]? = some L) (hc : s.cursor.value = .leaf L.length) :
    InputValues.move_right_inner L s.cursor.value = some (.leaf L.length, true) ∧
    ProgramState.move_right s = some s := by
constructor
· rw [hc]; simp [InputValues.move_right_inner]
· have h1 : InputValues.move_right L (.leaf L.length) = some (.leaf L.length) := by
    simp [InputValues.move_right, InputValues.move_right_inner]
  show (s.lines[s.cursor.line]?).bind _ = some s
  rw [hL]
  show (InputValues.move_right L s.cursor.value).map _ = some s
  rw [hc, h1]
  show some ⟨⟨s.cursor.line, .leaf L.length⟩, s.lines⟩ = some s
  rw [← hc]

/-- Witness for the amended C5 at a concrete state. -/
theorem move_right_end_of_line_witness :
    sC5w.lines[sC5w.cursor.line]? = some [] ∧ sC5w.cursor.value = .leaf 0 ∧
    ProgramState.move_right sC5w = some sC5w :=
⟨rfl, rfl, (move_right_end_of_line sC5w [] rfl rfl).2⟩

/-- C2 failing input: from the initial document, `newLine` then `moveUp`
reaches a two-line document with the cursor at line 0, index 0, no follow;
`deleteBefore` there panics (`self.cursor.line -= 1` underflows), modelled as
`none`. -/
theorem remove_single_line_zero_panics :
    applyOps [.enter, .up] ProgramState.init = some ⟨⟨0, .leaf 0⟩, [[], []]⟩ ∧
    ProgramState.remove_single ⟨⟨0, .leaf 0⟩, [[], []]⟩ = none ∧
    applyOps [.enter, .up, .backspace] ProgramState.init = none :=
⟨rfl, rfl, rfl⟩

/-- C1 failing input: typing `x`, wrapping it into a fraction, moving up and
right, and deleting twice dissolves the fraction with an empty surviving
branch; the reachable final state has an empty line but cursor index 1, so the
claimed bound `index ≤ length` fails, and the next `insertLeaf` panics
(`Vec::insert` past the end), modelled as `none`. -/
theorem dissolve_breaks_index_bounds :
    applyOps [.text "x", .text "/", .up, .right, .backspace, .backspace] ProgramState.init
      = some ⟨⟨0, .leaf 1⟩, [[]]⟩ ∧
    indexBounds [] (.leaf 1) = false ∧
    ProgramState.add_text ⟨⟨0, .leaf 1⟩, [[]]⟩ "y" = none :=
⟨rfl, rfl, rfl⟩

/-- C4 failing input: a reachable, valid depth-2 cursor whose innermost side
is `Top`; `moveUp` flips the innermost side from `Top` to `Bottom` (a visual
move down), because `move_vertical` recurses through `move_down` for both
directions. -/
theorem move_up_flips_top_to_bottom :
    applyOps [.text "1", .text "/", .text "2", .text "/", .left, .right] ProgramState.init
      = some ⟨⟨0, cC4⟩, [vsC4]⟩ ∧
    validCursor vsC4 cC4 = true ∧
    cC4 = .follow 1 .bottom (.follow 1 .top (.leaf 0)) ∧
    InputValues.move_up vsC4 cC4 = some (.follow 1 .bottom (.follow 1 .bottom (.leaf 0)), true) :=
⟨rfl, rfl, rfl, rfl⟩

/-- C3 failing input: a one-leaf document measured 100×30 in a 10×10 viewport.
After centering, the top-left is (-45, -10); the "clamp" shifts by the
negative coordinates themselves, doubling them, so the final combined
rectangle has top-left (-90, -20) — not 0. -/
theorem render_doubles_negative_offset :
    ProgramState.render sC3 10 10 (mkMeasureF measure100)
      = ⟨⟨-90, -20, 100, 30⟩, [.text (-90) (-20) "a", .cursorMark 10 (-15)]⟩ ∧
    ((-90 : Int) < 0 ∧ (-20 : Int) < 0) :=
⟨rfl, by decide⟩

/-- C9: `moveUp` on a depth-1 cursor at `Bottom` index `i` of a fraction flips
the side to `Top` and rescales the index to
`clamp(i - (a - b) / 2, 0, b)` with `a` the length of the bottom (left)
sequence, `b` the length of the top (entered) sequence, with `/` truncating
toward zero. -/
theorem move_up_rescales_index (vs top bottom : List InputValue) (k i : Nat)
    (hk : 1 ≤ k) (hf : vs[k - 1]? = some (.fraction top bottom))
    (hi : i ≤ bottom.length)
    (ht : top.length < 2147483648) (hb : bottom.length < 2147483648) :
    InputValues.move_up vs (.follow k .bottom (.leaf i)) =
      some (.follow k .top (.leaf (Int.toNat (max 0
        (min ((i : Int) - Int.tdiv ((bottom.length : Int) - (top.length : Int)) 2)
          (top.length : Int))))), true) := by
have hk0 : ¬ (k = 0) := by omega
unfold InputValues.move_up InputValues.move_vertical
rw [if_neg hk0, hf]
simp only [CursorFollow.opposite, if_true, reduceCtorEq, if_false]
rw [i32ofNat_eq_of_lt (by omega), i32ofNat_eq_of_lt ht, i32ofNat_eq_of_lt hb]
rw [clampI_eq_max_min _ _ (by positivity)]

/-- C6: for a fraction built from a single leaf (top `[Leaf t]`, bottom empty)
at position `k` of any line, with the cursor at bottom index 0, one
`deleteBefore` replaces the fraction element by the leaf at the same position
and leaves the cursor with no `follow` at index `k + 1`, immediately after it. -/
theorem delete_dissolves_single_leaf_fraction (s : ProgramState) (vs : List InputValue)
    (k : Nat) (t : String)
    (hL : s.lines[s.cursor.line]? = some vs)
    (hk : vs[k]? = some (.fraction [.value t] []))
    (hc : s.cursor.value = .follow (k + 1) .bottom (.leaf 0)) :
    ProgramState.remove_single s =
      some ⟨⟨s.cursor.line, .leaf (k + 1)⟩, s.lines.set s.cursor.line (vs.set k (.value t))⟩ := by
have hkl : k < vs.length := by
  rcases List.getElem?_eq_some.mp hk with ⟨h, _⟩
  exact h
have hseq : InputValues.remove_single vs (.follow (k + 1) .bottom (.leaf 0)) =
    some (vs.set k (.value t), .leaf (k + 1), false) := by
  have h1 : InputValues.remove_single vs (.follow (k + 1) .bottom (.leaf 0)) =
      some (InputValues.replace vs k [.value t], .leaf (k + 1), false) := by
    simp [InputValues.remove_single, hk]
  rw [h1]
  have hset : vs.set k (.value t) = InputValues.replace vs k [.value t] := by
    rw [List.set_eq_take_append_cons_drop, if_pos hkl]
    simp [InputValues.replace]
  rw [hset]
simp [ProgramState.remove_single, hc, hL, hseq]

/-- Witness for C6 at a concrete state: `[1(x)/()]` with the cursor at bottom
index 0 dissolves back to `[x]` with the cursor just after the leaf. -/
theorem delete_dissolves_single_leaf_fraction_witness :
    sC6.lines[sC6.cursor.line]? = some [.fraction [.value "x"] []] ∧
    sC6.cursor.value = .follow 1 .bottom (.leaf 0) ∧
    ProgramState.remove_single sC6 =
      some ⟨⟨sC6.cursor.line, .leaf 1⟩,
        sC6.lines.set sC6.cursor.line ([.fraction [.value "x"] []].set 0 (.value "x"))⟩ ∧
    sC6.lines.set sC6.cursor.line ([.fraction [.value "x"] []].set 0 (.value "x")) = [[.value "x"]] :=
⟨rfl, rfl,
 delete_dissolves_single_leaf_fraction sC6 [.fraction [.value "x"] []] 0 "x" rfl rfl rfl,
 rfl⟩

/-- C7: for every valid cursor, `insertLeaf(t)` inserts exactly one `Leaf(t)`
at the gap the cursor resolves to in the owning (innermost) sequence, growing
it by exactly one; the cursor advance (`ValueCursor::added`) increments the
resolved depth's index by one and leaves every ancestor level unchanged. -/
theorem add_text_inserts_one (vs : List InputValue) (c : ValueCursor) (t : String)
    (s : List InputValue) (hv : validCursor vs c = true) (hs : seqAt vs c = some s) :
    ∃ vs', InputValues.add_text vs c t = some vs' ∧
      c.innerIndex ≤ s.length ∧
      seqAt vs' c = some (s.take c.innerIndex ++ .value t :: s.drop c.innerIndex) ∧
      (s.take c.innerIndex ++ .value t :: s.drop c.innerIndex).length = s.length + 1 ∧
      c.added.chain = c.chain ∧ c.added.innerIndex = c.innerIndex + 1 := by
induction c generalizing vs with
| leaf i =>
  have hvs : vs = s := by simpa [seqAt] using hs
  subst hvs
  have hi : i ≤ vs.length := by simpa [validCursor] using hv
  refine ⟨vs.take i ++ .value t :: vs.drop i, ?_, hi, rfl, ?_, rfl, rfl⟩
  · simp [InputValues.add_text, hi]
  · simp [ValueCursor.innerIndex]
    omega
| follow i side child ih =>
  cases hmatch : vs[i - 1]? with
  | none => simp [validCursor, hmatch] at hv
  | some v =>
    cases v with
    | value u => simp [validCursor, hmatch] at hv
    | fraction ftop fbot =>
      cases side with
      | top =>
        simp only [validCursor, hmatch, Bool.and_eq_true, decide_eq_true_eq] at hv
        obtain ⟨h1, hv'⟩ := hv
        have hs' : seqAt ftop child = some s := by simpa [seqAt, hmatch] using hs
        obtain ⟨top', ha, hlen, hsq, hlen', hchain, hinner⟩ := ih ftop hv' hs'
        have hil : i - 1 < vs.length := by
          rcases List.getElem?_eq_some.mp hmatch with ⟨h, _⟩
          exact h
        have hi0 : ¬ i = 0 := by omega
        refine ⟨vs.set (i - 1) (.fraction top' fbot), ?_, hlen, ?_, hlen', ?_, ?_⟩
        · simp [InputValues.add_text, hi0, hmatch, ha]
        · have hget : (vs.set (i - 1) (.fraction top' fbot))[i - 1]? = some (.fraction top' fbot) :=
            List.getElem?_set_self hil
          simpa [seqAt, hget] using hsq
        · simp [ValueCursor.chain, ValueCursor.added, hchain]
        · simpa [ValueCursor.innerIndex, ValueCursor.added] using hinner
      | bottom =>
        simp only [validCursor, hmatch, Bool.and_eq_true, decide_eq_true_eq] at hv
        obtain ⟨h1, hv'⟩ := hv
        have hs' : seqAt fbot child = some s := by simpa [seqAt, hmatch] using hs
        obtain ⟨bot', ha, hlen, hsq, hlen', hchain, hinner⟩ := ih fbot hv' hs'
        have hil : i - 1 < vs.length := by
          rcases List.getElem?_eq_some.mp hmatch with ⟨h, _⟩
          exact h
        have hi0 : ¬ i = 0 := by omega
        refine ⟨vs.set (i - 1) (.fraction ftop bot'), ?_, hlen, ?_, hlen', ?_, ?_⟩
        · simp [InputValues.add_text, hi0, hmatch, ha]
        · have hget : (vs.set (i - 1) (.fraction ftop bot'))[i - 1]? = some (.fraction ftop bot') :=
            List.getElem?_set_self hil
          simpa [seqAt, hget] using hsq
        · simp [ValueCursor.chain, ValueCursor.added, hchain]
        · simpa [ValueCursor.innerIndex, ValueCursor.added] using hinner

/-- Witness for C7 at a concrete valid cursor inside a fraction's bottom. -/
theorem add_text_inserts_one_witness :
    validCursor vsC7 cC7 = true ∧ seqAt vsC7 cC7 = some [.value "2"] ∧
    (∃ vs', InputValues.add_text vsC7 cC7 "z" = some vs' ∧
      cC7.innerIndex ≤ [InputValue.value "2"].length ∧
      seqAt vs' cC7 = some ([InputValue.value "2"].take cC7.innerIndex ++
        .value "z" :: [InputValue.value "2"].drop cC7.innerIndex) ∧
      ([InputValue.value "2"].take cC7.innerIndex ++
        .value "z" :: [InputValue.value "2"].drop cC7.innerIndex).length
        = [InputValue.value "2"].length + 1 ∧
      cC7.added.chain = cC7.chain ∧ cC7.added.innerIndex = cC7.innerIndex + 1) :=
⟨rfl, rfl, add_text_inserts_one vsC7 cC7 "z" [.value "2"] rfl rfl⟩

/-- Witness for C9: the spec's example, top length 4, bottom length 2, moving
up from bottom index 1 lands at top index 2. -/
theorem move_up_rescales_index_witness :
    vs9[0]? = some (.fraction top9 bottom9) ∧
    InputValues.move_up vs9 (.follow 1 .bottom (.leaf 1)) =
      some (.follow 1 .top (.leaf (Int.toNat (max 0
        (min ((1 : Int) - Int.tdiv ((bottom9.length : Int) - (top9.length : Int)) 2)
          (top9.length : Int))))), true) ∧
    Int.toNat (max 0 (min ((1 : Int) - Int.tdiv ((bottom9.length : Int) - (top9.length : Int)) 2)
      (top9.length : Int))) = 2 :=
⟨rfl,
 move_up_rescales_index vs9 top9 bottom9 1 1 (by decide) rfl (by decide) (by decide) (by decide),
 by decide⟩


/-! Lemmas about the cursor observers and the horizontal moves. -/

/-- Decrementing the innermost index decrements `innerIndex`. -/
theorem innerIndex_decInner (c : ValueCursor) : c.decInner.innerIndex = c.innerIndex - 1 := by
induction c with
| leaf i => rfl
| follow i s child ih => simpa [ValueCursor.decInner, ValueCursor.innerIndex] using ih

theorem innerIndex_incInner (c : ValueCursor) : c.incInner.innerIndex = c.innerIndex + 1 := by
induction c with
| leaf i => rfl
| follow i s child ih => simpa [ValueCursor.incInner, ValueCursor.innerIndex] using ih

theorem innerIndex_pushTop (c : ValueCursor) (j : Nat) : (c.pushTop j).innerIndex = j := by
induction c with
| leaf i => rfl
| follow i s child ih => simpa [ValueCursor.pushTop, ValueCursor.innerIndex] using ih

theorem decInner_incInner (c : ValueCursor) : c.incInner.decInner = c := by
induction c with
| leaf i => rfl
| follow i s child ih => simp [ValueCursor.incInner, ValueCursor.decInner, ih]

theorem incInner_decInner (c : ValueCursor) (h : 1 ≤ c.innerIndex) : c.decInner.incInner = c := by
induction c with
| leaf i => simp [ValueCursor.innerIndex] at h; simp [ValueCursor.decInner, ValueCursor.incInner]; omega
| follow i s child ih =>
  have h' : 1 ≤ child.innerIndex := h
  simp [ValueCursor.decInner, ValueCursor.incInner, ih h']

theorem seqAt_follow (vs ftop fbot : List InputValue) (i : Nat) (side : CursorFollow)
    (child : ValueCursor) (hm : vs[i - 1]? = some (.fraction ftop fbot)) :
    seqAt vs (.follow i side child) = seqAt (side.pick ftop fbot) child := by
cases side <;> simp [seqAt, hm, CursorFollow.pick]

theorem innerAt_follow (vs ftop fbot : List InputValue) (i : Nat) (side : CursorFollow)
    (child : ValueCursor) (hm : vs[i - 1]? = some (.fraction ftop fbot)) :
    innerAt vs (.follow i side child) = innerAt (side.pick ftop fbot) child := by
simp [innerAt, seqAt_follow vs ftop fbot i side child hm, ValueCursor.innerIndex]

theorem validCursor_follow_elim {vs : List InputValue} {i : Nat} {side : CursorFollow}
    {child : ValueCursor} (hv : validCursor vs (.follow i side child) = true) :
    1 ≤ i ∧ ∃ ftop fbot, vs[i - 1]? = some (.fraction ftop fbot) ∧
      validCursor (side.pick ftop fbot) child = true := by
cases hm : vs[i - 1]? with
| none => simp [validCursor, hm] at hv
| some v =>
  cases v with
  | value u => simp [validCursor, hm] at hv
  | fraction ftop fbot =>
    cases side with
    | top =>
      simp only [validCursor, hm, Bool.and_eq_true, decide_eq_true_eq] at hv
      exact ⟨hv.1, ftop, fbot, rfl, hv.2⟩
    | bottom =>
      simp only [validCursor, hm, Bool.and_eq_true, decide_eq_true_eq] at hv
      exact ⟨hv.1, ftop, fbot, rfl, hv.2⟩

theorem validCursor_follow_intro {vs ftop fbot : List InputValue} {i : Nat} {side : CursorFollow}
    {child : ValueCursor} (h1 : 1 ≤ i) (hm : vs[i - 1]? = some (.fraction ftop fbot))
    (hc : validCursor (side.pick ftop fbot) child = true) :
    validCursor vs (.follow i side child) = true := by
cases side <;> simp_all [validCursor, hm, CursorFollow.pick]

theorem seqAt_decInner (vs : List InputValue) (c : ValueCursor) :
    seqAt vs c.decInner = seqAt vs c := by
induction c generalizing vs with
| leaf i => rfl
| follow i s child ih =>
  cases hm : vs[i - 1]? with
  | none => cases s <;> simp [ValueCursor.decInner, seqAt, hm]
  | some v =>
    cases v with
    | value u => cases s <;> simp [ValueCursor.decInner, seqAt, hm]
    | fraction ftop fbot => cases s <;> simp [ValueCursor.decInner, seqAt, hm, ih]

theorem seqAt_incInner (vs : List InputValue) (c : ValueCursor) :
    seqAt vs c.incInner = seqAt vs c := by
induction c generalizing vs with
| leaf i => rfl
| follow i s child ih =>
  cases hm : vs[i - 1]? with
  | none => cases s <;> simp [ValueCursor.incInner, seqAt, hm]
  | some v =>
    cases v with
    | value u => cases s <;> simp [ValueCursor.incInner, seqAt, hm]
    | fraction ftop fbot => cases s <;> simp [ValueCursor.incInner, seqAt, hm, ih]

theorem validCursor_decInner {vs : List InputValue} {c : ValueCursor}
    (hv : validCursor vs c = true) : validCursor vs c.decInner = true := by
induction c generalizing vs with
| leaf i =>
  simp [validCursor] at hv ⊢
  omega
| follow i s child ih =>
  obtain ⟨h1, ftop, fbot, hm, hc⟩ := validCursor_follow_elim hv
  exact validCursor_follow_intro h1 hm (ih hc)

theorem validCursor_incInner {vs s : List InputValue} {c : ValueCursor}
    (hv : validCursor vs c = true) (hs : seqAt vs c = some s)
    (hlt : c.innerIndex < s.length) : validCursor vs c.incInner = true := by
induction c generalizing vs with
| leaf i =>
  have : vs = s := by simpa [seqAt] using hs
  subst this
  simp [validCursor, ValueCursor.incInner] at hv ⊢
  simpa [ValueCursor.innerIndex] using hlt
| follow i sd child ih =>
  obtain ⟨h1, ftop, fbot, hm, hc⟩ := validCursor_follow_elim hv
  have hs' : seqAt (sd.pick ftop fbot) child = some s := by
    rw [← seqAt_follow vs ftop fbot i sd child hm]; exact hs
  exact validCursor_follow_intro h1 hm (ih hc hs' hlt)


theorem validCursor_pushTop {vs ftop fbot : List InputValue} {c : ValueCursor} {j : Nat}
    (hv : validCursor vs c = true) (h1 : 1 ≤ c.innerIndex)
    (hf : innerAt vs c = some (.fraction ftop fbot)) (hj : j ≤ ftop.length) :
    validCursor vs (c.pushTop j) = true := by
induction c generalizing vs with
| leaf i =>
  have hm : vs[i - 1]? = some (.fraction ftop fbot) := by
    simpa [innerAt, seqAt, ValueCursor.innerIndex] using hf
  have h1' : 1 ≤ i := h1
  exact validCursor_follow_intro h1' hm (by simpa [CursorFollow.pick, validCursor] using hj)
| follow i sd child ih =>
  obtain ⟨hi1, ftop', fbot', hm, hc⟩ := validCursor_follow_elim hv
  have hf' : innerAt (sd.pick ftop' fbot') child = some (.fraction ftop fbot) := by
    rw [← innerAt_follow vs ftop' fbot' i sd child hm]; exact hf
  exact validCursor_follow_intro hi1 hm (ih hc h1 hf')

theorem step_in_follow (vs ftop fbot : List InputValue) (i : Nat) (side : CursorFollow)
    (child : ValueCursor) (r : Bool) (hi0 : ¬ i = 0)
    (hm : vs[i - 1]? = some (.fraction ftop fbot)) :
    InputValues.step_in vs (.follow i side child) r =
      (InputValues.step_in (side.pick ftop fbot) child r).map fun p =>
        ((.follow i side p.1 : ValueCursor), p.2) := by
cases side <;> simp [InputValues.step_in, hm, hi0, CursorFollow.pick]

theorem move_right_inner_follow (vs ftop fbot : List InputValue) (i : Nat) (side : CursorFollow)
    (child : ValueCursor) (hi0 : ¬ i = 0)
    (hm : vs[i - 1]? = some (.fraction ftop fbot)) :
    InputValues.move_right_inner vs (.follow i side child) =
      (InputValues.move_right_inner (side.pick ftop fbot) child).map fun p =>
        if p.2 then ((.leaf i : ValueCursor), true) else ((.follow i side p.1 : ValueCursor), false) := by
cases side <;> simp [InputValues.move_right_inner, hm, hi0, CursorFollow.pick]

theorem step_in_flat {vs : List InputValue} {c : ValueCursor}
    (hv : validCursor vs c = true)
    (hcond : c.innerIndex = 0 ∨ ∃ u, innerAt vs c = some (.value u)) (r : Bool) :
    InputValues.step_in vs c r = some (c, false) := by
induction c generalizing vs with
| leaf i =>
  cases i with
  | zero => rfl
  | succ j =>
    rcases hcond with h0 | ⟨u, hu⟩
    · exact absurd h0 (by simp [ValueCursor.innerIndex])
    · have hm : vs[j]? = some (.value u) := by
        simpa [innerAt, seqAt, ValueCursor.innerIndex] using hu
      simp [InputValues.step_in, hm]
| follow i side child ih =>
  obtain ⟨h1, ftop, fbot, hm, hc⟩ := validCursor_follow_elim hv
  have hi0 : ¬ i = 0 := by omega
  rw [step_in_follow vs ftop fbot i side child r hi0 hm]
  have hcond' : child.innerIndex = 0 ∨ ∃ u, innerAt (side.pick ftop fbot) child = some (.value u) := by
    rcases hcond with h0 | ⟨u, hu⟩
    · exact Or.inl h0
    · exact Or.inr ⟨u, by rw [← innerAt_follow vs ftop fbot i side child hm]; exact hu⟩
  rw [ih hc hcond']
  rfl

theorem step_in_enter {vs ftop fbot : List InputValue} {c : ValueCursor}
    (hv : validCursor vs c = true) (h1 : 1 ≤ c.innerIndex)
    (hf : innerAt vs c = some (.fraction ftop fbot)) (r : Bool) :
    InputValues.step_in vs c r = some (c.pushTop (if r then ftop.length else 0), true) := by
induction c generalizing vs with
| leaf i =>
  cases i with
  | zero => exact absurd h1 (by simp [ValueCursor.innerIndex])
  | succ j =>
    have hm : vs[j]? = some (.fraction ftop fbot) := by
      simpa [innerAt, seqAt, ValueCursor.innerIndex] using hf
    simp [InputValues.step_in, hm, ValueCursor.pushTop]
| follow i side child ih =>
  obtain ⟨hi1, ftop', fbot', hm, hc⟩ := validCursor_follow_elim hv
  have hi0 : ¬ i = 0 := by omega
  rw [step_in_follow vs ftop' fbot' i side child r hi0 hm]
  have hf' : innerAt (side.pick ftop' fbot') child = some (.fraction ftop fbot) := by
    rw [← innerAt_follow vs ftop' fbot' i side child hm]; exact hf
  rw [ih hc h1 hf']
  rfl

theorem move_left_inner_dec {c : ValueCursor} (vs : List InputValue)
    (h1 : 1 ≤ c.innerIndex) :
    InputValues.move_left_inner vs c = (c.decInner, false) := by
induction c with
| leaf i =>
  cases i with
  | zero => exact absurd h1 (by simp [ValueCursor.innerIndex])
  | succ j => rfl
| follow i s child ih =>
  have h1' : 1 ≤ child.innerIndex := h1
  simp [InputValues.move_left_inner, ih h1', ValueCursor.decInner]

theorem move_left_inner_pop {c : ValueCursor} (vs : List InputValue)
    (h1 : 1 ≤ c.innerIndex) :
    InputValues.move_left_inner vs (c.pushTop 0) = (c.decInner, false) := by
induction c with
| leaf i =>
  cases i with
  | zero => exact absurd h1 (by simp [ValueCursor.innerIndex])
  | succ j => rfl
| follow i s child ih =>
  have h1' : 1 ≤ child.innerIndex := h1
  simp [ValueCursor.pushTop, InputValues.move_left_inner, ih h1', ValueCursor.decInner]

theorem move_right_inner_inc {vs s : List InputValue} {c : ValueCursor}
    (hv : validCursor vs c = true) (hs : seqAt vs c = some s)
    (hlt : c.innerIndex < s.length) :
    InputValues.move_right_inner vs c = some (c.incInner, false) := by
induction c generalizing vs with
| leaf i =>
  have hvs : vs = s := by simpa [seqAt] using hs
  subst hvs
  have : i < vs.length := hlt
  simp [InputValues.move_right_inner, this, ValueCursor.incInner]
| follow i side child ih =>
  obtain ⟨h1, ftop, fbot, hm, hc⟩ := validCursor_follow_elim hv
  have hi0 : ¬ i = 0 := by omega
  rw [move_right_inner_follow vs ftop fbot i side child hi0 hm]
  have hs' : seqAt (side.pick ftop fbot) child = some s := by
    rw [← seqAt_follow vs ftop fbot i side child hm]; exact hs
  rw [ih hc hs' hlt]
  rfl


/-- C8 amended: on a valid cursor, `moveLeft` then `moveRight` returns to the
original cursor provided the innermost index is at least 1 and the element
immediately left of it is a plain leaf (not a fraction-entry boundary, not the
sequence start); `moveRight` then `moveLeft` returns to the original cursor
provided the innermost index is strictly below the sequence length (not the
sequence end) — this direction holds even when the step enters a fraction. -/
theorem horizontal_round_trip (vs : List InputValue) (c : ValueCursor) (s : List InputValue)
    (hv : validCursor vs c = true) (hs : seqAt vs c = some s) :
    (∀ u, 1 ≤ c.innerIndex → innerAt vs c = some (.value u) →
      ((InputValues.move_left vs c).bind fun c1 => InputValues.move_right vs c1) = some c) ∧
    (c.innerIndex < s.length →
      ((InputValues.move_right vs c).bind fun c1 => InputValues.move_left vs c1) = some c) := by
constructor
· intro u h1 hu
  have hstep : InputValues.step_in vs c true = some (c, false) :=
    step_in_flat hv (Or.inr ⟨u, hu⟩) true
  have hml : InputValues.move_left vs c = some c.decInner := by
    simp [InputValues.move_left, hstep, move_left_inner_dec vs h1]
  have hlt : c.innerIndex - 1 < s.length := by
    have h2 : s[c.innerIndex - 1]? = some (.value u) := by
      simpa [innerAt, hs] using hu
    rcases List.getElem?_eq_some.mp h2 with ⟨h, _⟩
    exact h
  have hvd : validCursor vs c.decInner = true := validCursor_decInner hv
  have hsd : seqAt vs c.decInner = some s := by rw [seqAt_decInner]; exact hs
  have hmr1 : InputValues.move_right_inner vs c.decInner = some (c.decInner.incInner, false) :=
    move_right_inner_inc hvd hsd (by rw [innerIndex_decInner]; exact hlt)
  have hid : c.decInner.incInner = c := incInner_decInner c h1
  have hmr : InputValues.move_right vs c.decInner = some c := by
    simp [InputValues.move_right, hmr1, hid, step_in_flat hv (Or.inr ⟨u, hu⟩) false]
  rw [hml]
  simpa using hmr
· intro hlt
  have hmr1 : InputValues.move_right_inner vs c = some (c.incInner, false) :=
    move_right_inner_inc hv hs hlt
  have hvi : validCursor vs c.incInner = true := validCursor_incInner hv hs hlt
  have hsi : seqAt vs c.incInner = some s := by rw [seqAt_incInner]; exact hs
  have hii : c.incInner.innerIndex = c.innerIndex + 1 := innerIndex_incInner c
  have hia : innerAt vs c.incInner = s[c.innerIndex]? := by
    simp [innerAt, hsi, hii]
  cases helem : s[c.innerIndex]? with
  | none =>
    rw [List.getElem?_eq_getElem hlt] at helem
    simp at helem
  | some v =>
    cases v with
    | value u =>
      have hstep : InputValues.step_in vs c.incInner false = some (c.incInner, false) :=
        step_in_flat hvi (Or.inr ⟨u, by rw [hia, helem]⟩) false
      have hmr : InputValues.move_right vs c = some c.incInner := by
        simp [InputValues.move_right, hmr1, hstep]
      have hstep2 : InputValues.step_in vs c.incInner true = some (c.incInner, false) :=
        step_in_flat hvi (Or.inr ⟨u, by rw [hia, helem]⟩) true
      have hml : InputValues.move_left vs c.incInner = some c := by
        simp [InputValues.move_left, hstep2,
          move_left_inner_dec vs (by rw [hii]; omega), decInner_incInner]
      rw [hmr]
      simpa using hml
    | fraction ftop fbot =>
      have hfi : innerAt vs c.incInner = some (.fraction ftop fbot) := by rw [hia, helem]
      have h1i : 1 ≤ c.incInner.innerIndex := by rw [hii]; omega
      have hstep : InputValues.step_in vs c.incInner false = some (c.incInner.pushTop 0, true) := by
        simpa using step_in_enter hvi h1i hfi false
      have hmr : InputValues.move_right vs c = some (c.incInner.pushTop 0) := by
        simp [InputValues.move_right, hmr1, hstep]
      have hvp : validCursor vs (c.incInner.pushTop 0) = true :=
        validCursor_pushTop hvi h1i hfi (Nat.zero_le _)
      have hstepl : InputValues.step_in vs (c.incInner.pushTop 0) true
          = some (c.incInner.pushTop 0, false) :=
        step_in_flat hvp (Or.inl (innerIndex_pushTop _ 0)) true
      have hml : InputValues.move_left vs (c.incInner.pushTop 0) = some c := by
        simp [InputValues.move_left, hstepl, move_left_inner_pop vs h1i, decInner_incInner]
      rw [hmr]
      simpa using hml


/-- C8 counterexample: the cursor `{index: 0, follow: None}` on the one-leaf
sequence `[Leaf "a"]` is valid and is at no fraction-entry boundary (the
sequence holds no fraction at all), yet `moveLeft` then `moveRight` lands at
index 1, not back at index 0. -/
theorem round_trip_fails_at_seq_start_cex :
    validCursor vsC8 (.leaf 0) = true ∧
    vsC8 = [.value "a"] ∧
    ((InputValues.move_left vsC8 (.leaf 0)).bind fun c1 => InputValues.move_right vsC8 c1)
      = some (.leaf 1) ∧
    ValueCursor.leaf 1 ≠ ValueCursor.leaf 0 :=
⟨rfl, rfl, rfl, by decide⟩

/-- Witness for the amended C8 on `[Leaf "a", Leaf "b"]` with the cursor at
index 1: both round trips restore the cursor. -/
theorem horizontal_round_trip_witness :
    validCursor vsC8w (.leaf 1) = true ∧ seqAt vsC8w (.leaf 1) = some vsC8w ∧
    1 ≤ (ValueCursor.leaf 1).innerIndex ∧
    innerAt vsC8w (.leaf 1) = some (.value "a") ∧
    ((InputValues.move_left vsC8w (.leaf 1)).bind fun c1 => InputValues.move_right vsC8w c1)
      = some (.leaf 1) ∧
    (ValueCursor.leaf 1).innerIndex < vsC8w.length ∧
    ((InputValues.move_right vsC8w (.leaf 1)).bind fun c1 => InputValues.move_left vsC8w c1)
      = some (.leaf 1) :=
⟨rfl, rfl, by decide, rfl,
 (horizontal_round_trip vsC8w (.leaf 1) vsC8w rfl rfl).1 "a" (by decide) rfl,
 by decide,
 (horizontal_round_trip vsC8w (.leaf 1) vsC8w rfl rfl).2 (by decide)⟩

end MathEditor
